import Mathlib

/-!
Verification of the gonsole command registry and rebuild engine
(`command.go`, the configuration file, `prompt.go`).

The Go code is embedded shallowly:

* `Command`, `commandGroup`, `optionGroup` mirror the structs of
  `command.go`; opaque function values (the `Data` factory, the
  completion providers, the option-group generators) are represented by
  `Nat` identifiers, and nil-able Go pointers/functions by `Option`.
* The vendored go-flags `flags.Command` handle is reduced to the two
  fields the engine reads or writes (`Hidden`, `SubcommandsOptional`);
  everything else of the parsing library is outside this repository.
* Go methods that mutate the receiver become functions returning the
  updated value; Go runtime panics (nil-pointer dereference, slice
  bounds) are modelled by returning `none` from an `Option`-valued
  embedding.
-/

/-- The two fields of a generated go-flags `*flags.Command` handle that the
registry reads or writes (`Hidden` in `hideCommands`, `SubcommandsOptional`
in the spawner of `Command.AddCommand`). The library is vendored and
treated as an opaque sink, per the spec's external-interface contract. -/
structure FlagsCommand where
  Hidden : Bool
  SubcommandsOptional : Bool
deriving DecidableEq, Repr

/-- `commandGroup` of the source: a display-group name plus its ordered
commands.  Parameterised by the element type so that it can be nested
inside the `Command` inductive below. -/
structure GroupOf (α : Type) where
  Name : String
  cmds : List α
deriving Repr

/-- `optionGroup` of the source, as used by `Console.bindCommands`
(`opt.short`, `opt.long`, `opt.generator()`): the generator is an opaque
factory, represented by the identifier of the flag data it yields. -/
structure optionGroup where
  short : String
  long : String
  generator : Nat
deriving DecidableEq, Repr

/-- The four completion maps of `Command` (`argComps`, `argCompsDynamic`,
`optComps`, `optCompsDynamic`); providers are opaque functions,
represented by `Nat` identifiers. -/
structure Comps where
  argComps : List (String × Nat)
  argCompsDynamic : List (String × Nat)
  optComps : List (String × Nat)
  optCompsDynamic : List (String × Nat)
deriving DecidableEq, Repr

/-- The empty completion maps made by `newCommand` / `AddCommand`. -/
def emptyComps : Comps := ⟨[], [], [], []⟩

/-- The `Command` struct of `command.go`, fields in source order.
`Data` is the nil-able `func() interface{}`; `generator` is the nil-able
spawner closure, which captures exactly `(name, short, long, data)`;
`cmd` is the nil-able generated go-flags handle of the current cycle. -/
inductive Command : Type where
  | mk (Name ShortDescription LongDescription Group : String)
       (Filters : List String)
       (SubcommandsOptional : Bool)
       (Data : Option Nat)
       (generator : Option (String × String × String × Nat))
       (cmd : Option FlagsCommand)
       (opts : List optionGroup)
       (groups : List (GroupOf Command))
       (comps : Comps)

def Command.Name : Command → String
  | .mk n _ _ _ _ _ _ _ _ _ _ _ => n

def Command.ShortDescription : Command → String
  | .mk _ s _ _ _ _ _ _ _ _ _ _ => s

def Command.LongDescription : Command → String
  | .mk _ _ l _ _ _ _ _ _ _ _ _ => l

def Command.Group : Command → String
  | .mk _ _ _ g _ _ _ _ _ _ _ _ => g

def Command.Filters : Command → List String
  | .mk _ _ _ _ f _ _ _ _ _ _ _ => f

def Command.SubcommandsOptional : Command → Bool
  | .mk _ _ _ _ _ so _ _ _ _ _ _ => so

def Command.Data : Command → Option Nat
  | .mk _ _ _ _ _ _ d _ _ _ _ _ => d

def Command.generator : Command → Option (String × String × String × Nat)
  | .mk _ _ _ _ _ _ _ gen _ _ _ _ => gen

def Command.cmd : Command → Option FlagsCommand
  | .mk _ _ _ _ _ _ _ _ c _ _ _ => c

def Command.opts : Command → List optionGroup
  | .mk _ _ _ _ _ _ _ _ _ o _ _ => o

def Command.groups : Command → List (GroupOf Command)
  | .mk _ _ _ _ _ _ _ _ _ _ gs _ => gs

def Command.comps : Command → Comps
  | .mk _ _ _ _ _ _ _ _ _ _ _ cm => cm

/-- Replace the `groups` field (Go mutates `c.groups` in place). -/
def Command.withGroups : Command → List (GroupOf Command) → Command
  | .mk n s l g f so d gen c o _ cm, gs => .mk n s l g f so d gen c o gs cm

/-- Replace the generated-handle field `cmd`. -/
def Command.withCmd : Command → Option FlagsCommand → Command
  | .mk n s l g f so d gen _ o gs cm, c => .mk n s l g f so d gen c o gs cm

/-- `newCommand()` of the source: zero values, completion maps allocated. -/
def newCommand : Command :=
  .mk "" "" "" "" [] false none none none [] [] emptyComps

instance : Inhabited Command := ⟨newCommand⟩

/-- The fresh node that `Command.AddCommand` builds on success: the six
caller-supplied data fields, the spawner closure over
`(name, short, long, data)`, and everything else zero/empty. -/
def freshNode (name short long group : String) (filters : List String)
    (data : Option Nat) : Command :=
  .mk name short long group filters false none
    (data.map (fun d => (name, short, long, d))) none [] [] emptyComps

/-- The group-pointer aliasing of `AddCommand`: the Go loop
`for _, g := range c.groups { if g.Name == group { grp = g } }` keeps the
LAST matching group, and `grp.cmds = append(grp.cmds, command)` then
mutates that group in place.  This updates the last group whose name
matches, appending `cmd` to its command list. -/
def appendToLastMatching : List (GroupOf Command) → String → Command →
    List (GroupOf Command)
  | [], _, _ => []
  | g :: t, name, cmd =>
    if t.any (fun g2 => g2.Name == name) then
      g :: appendToLastMatching t name cmd
    else if g.Name == name then
      ⟨g.Name, g.cmds ++ [cmd]⟩ :: t
    else
      g :: appendToLastMatching t name cmd

/-- `Command.AddCommand` of the source: returns the Go function's return
value (`nil` on a missing data factory) together with the updated
receiver.  On success, the lazily-found-or-created group named `group`
gets the fresh node appended. -/
def Command.AddCommand (c : Command) (name short long group : String)
    (filters : List String) (data : Option Nat) : Option Command × Command :=
  match data with
  | none => (none, c)
  | some d =>
    let command : Command :=
      .mk name short long group filters false none
        (some (name, short, long, d)) none [] [] emptyComps
    if c.groups.any (fun g => g.Name == group) then
      (some command, c.withGroups (appendToLastMatching c.groups group command))
    else
      (some command, c.withGroups (c.groups ++ [⟨group, [command]⟩]))

/-- `Command.Add` of the source: delegates to `AddCommand` with exactly
the six data fields of the passed struct. -/
def Command.Add (c : Command) (cmd : Command) : Option Command × Command :=
  c.AddCommand cmd.Name cmd.ShortDescription cmd.LongDescription cmd.Group
    cmd.Filters cmd.Data

/-- `Command.GoFlagsCommands` of the source: nested loops appending the
generated handle of each root-level child, skipping nil handles. -/
def Command.GoFlagsCommands (c : Command) : List FlagsCommand :=
  c.groups.foldl
    (fun acc g =>
      g.cmds.foldl
        (fun acc2 cmd =>
          match cmd.cmd with
          | some fc => acc2 ++ [fc]
          | none => acc2)
        acc)
    []

/-- `Command.Commands` of the source: nested loops appending every
root-level child in group order then node order. -/
def Command.Commands (c : Command) : List Command :=
  c.groups.foldl (fun acc g => g.cmds.foldl (fun acc2 cmd => acc2 ++ [cmd]) acc) []

/-- `Command.CommandGroups` of the source. -/
def Command.CommandGroups (c : Command) : List (GroupOf Command) := c.groups

/-- `Command.OptionGroups` of the source. -/
def Command.OptionGroups (c : Command) : List optionGroup := c.opts

/-- Inner loop of `Command.FindCommand`: first command with a matching
name inside one group. -/
def findInCmds : List Command → String → Option Command
  | [], _ => none
  | c :: t, name => if c.Name == name then some c else findInCmds t name

/-- Outer loop of `Command.FindCommand`: groups in insertion order, the
first match returned. -/
def findInGroups : List (GroupOf Command) → String → Option Command
  | [], _ => none
  | g :: t, name =>
    match findInCmds g.cmds name with
    | some c => some c
    | none => findInGroups t name

/-- `Command.FindCommand` of the source. -/
def Command.FindCommand (c : Command) (name : String) : Option Command :=
  findInGroups c.groups name

/-- Prompt configuration (`PromptConfig` of the configuration file). -/
structure PromptConfig where
  Left : String
  Right : String
  Newline : Bool
  Multiline : Bool
  MultilinePrompt : String
deriving DecidableEq, Repr

/-- `Config` of the configuration file.  `InputMode` is a string type in
the source; the two maps are nil-able Go maps whose values are nil-able
pointers, hence the nested `Option`s. -/
structure Config where
  InputMode : String
  Prompts : Option (List (String × Option PromptConfig))
  Hints : Bool
  MaxTabCompleterRows : Nat
  Highlighting : Option (List (String × String))
deriving DecidableEq, Repr

/-- `InputVim` of the source. -/
def InputVim : String := "vim"

/-- `InputEmacs` of the source. -/
def InputEmacs : String := "emacs"

/-- The vendored readline display constants used by the default
highlighting map.  Their exact ANSI values are irrelevant to every claim;
the library is vendored and not part of this repository's sources. -/
def readlineBOLD : String := "\x1b[1m"

def readlineFOREWHITE : String := "\x1b[38;5;15m"

/-- `NewDefaultConfig()` of the configuration file. -/
def NewDefaultConfig : Config :=
  { InputMode := InputVim
    Prompts := some []
    Hints := true
    MaxTabCompleterRows := 50
    Highlighting := some
      [("\x7bcommand\x7d", readlineBOLD),
       ("\x7bcommand-argument\x7d", readlineFOREWHITE),
       ("\x7boption\x7d", readlineBOLD),
       ("\x7boption-argument\x7d", readlineFOREWHITE),
       ("\x7bhint-text\x7d", "\x1b[38;5;248m")] }

/-- `newDefaultPromptConfig(menu)` of the configuration file. -/
def newDefaultPromptConfig (menu : String) : PromptConfig :=
  { Left := "gonsole (" ++ menu ++ ")"
    Right := ""
    Newline := true
    Multiline := true
    MultilinePrompt := " > " }

/-- Input modes of the vendored readline shell (`readline.Emacs` /
`readline.Vim`), the only two values `reloadConfig` assigns. -/
inductive RlInputMode : Type where
  | Emacs
  | Vim
deriving DecidableEq, Repr

/-- The readline shell fields written by `reloadConfig` (the shell itself
is external). -/
structure Shell where
  MultilinePrompt : String
  Multiline : Bool
  InputMode : RlInputMode
deriving DecidableEq, Repr

/-- A generated go-flags parser handle for one context.  Modelled from the
spec: `initParser` (not under src/) resets it to a fresh empty handle
carrying the Registry's static parser options; `AddGroup` (the vendored
go-flags operation called by `bindCommands`) appends one named flag group
produced by an option-group factory. -/
structure Parser where
  parserOpts : Nat
  flagGroups : List (String × String × Nat)
deriving DecidableEq, Repr

/-- Modelled from the spec: a fresh empty parser handle configured with
the Registry's static parser options (`cc.initParser(c.parserOpts)`,
whose body is not under src/). -/
def initParser (opts : Nat) : Parser := ⟨opts, []⟩

/-- Modelled from the spec (go-flags interface contract, "add option
group"): `cc.parser.AddGroup(opt.short, opt.long, opt.generator())`
attaches the factory's flag definitions to the handle. -/
def Parser.AddGroup (p : Parser) (short long : String) (data : Nat) : Parser :=
  { p with flagGroups := p.flagGroups ++ [(short, long, data)] }

/-- Modelled from the spec: the `context` (menu) struct is not under
src/; its fields are taken from their uses in `command.go` and the
configuration file (`cc.cmd`, `cc.parser`, `c.current.Name`,
`c.current.Prompt`). `prompt` holds the pointer last passed to
`loadFromConfig`. -/
structure Menu where
  Name : String
  cmd : Command
  parser : Parser
  prompt : Option PromptConfig

/-- The `Console` (Registry) fields used by the embedded methods: the
current context, the mutable filter set, the static parser options, the
loaded configuration, and the shell/prompt fields written by
`reloadConfig`.  The struct itself is not under src/; the field set is
modelled from its uses in `command.go` and the configuration file. -/
structure Console where
  current : Menu
  filters : List String
  parserOpts : Nat
  config : Config
  shell : Shell
  PreOutputNewline : Bool

/-- `Console.AddCommand` of the source: binds to the current context. -/
def Console.AddCommand (c : Console) (name short long group : String)
    (filters : List String) (data : Option Nat) : Option Command × Console :=
  let r := c.current.cmd.AddCommand name short long group filters data
  (r.1, { c with current := { c.current with cmd := r.2 } })

/-- `Console.Add` of the source: `c.current.AddCommand` with the six data
fields of the passed struct (the context method delegates to its embedded
root command; its body is not under src/ and is modelled from the spec). -/
def Console.Add (c : Console) (cmd : Command) : Option Command × Console :=
  c.AddCommand cmd.Name cmd.ShortDescription cmd.LongDescription cmd.Group
    cmd.Filters cmd.Data

/-- `Console.HideCommands` of the source (the spec's `Filter`):
early-returns when the filter is already present, else appends. -/
def Console.HideCommands (c : Console) (filter : String) : Console :=
  if c.filters.contains filter then c
  else { c with filters := c.filters ++ [filter] }

/-- `Console.FindCommand` of the source: the same nested root-level-group
loops as `Command.FindCommand`, over the current context. -/
def Console.FindCommand (c : Console) (name : String) : Option Command :=
  findInGroups c.current.cmd.groups name

/-- Go-map "append to key" used by `Console.GetCommands`
(`groups[group.Name] = append(groups[group.Name], cmd.cmd)`): the map is
modelled as an association list whose keys stay unique. -/
def mapAppend (m : List (String × List (Option FlagsCommand))) (k : String)
    (v : Option FlagsCommand) : List (String × List (Option FlagsCommand)) :=
  if m.any (fun e => e.1 == k) then
    m.map (fun e => if e.1 == k then (e.1, e.2 ++ [v]) else e)
  else
    m ++ [(k, [v])]

/-- Lookup in the modelled Go map. -/
def mapGet (m : List (String × List (Option FlagsCommand))) (k : String) :
    Option (List (Option FlagsCommand)) :=
  (m.find? (fun e => e.1 == k)).map (fun e => e.2)

/-- `Console.GetCommands` of the source: for the current context, a map
from group name to the per-command generated handles (nil handles
included), plus the group names in insertion order. -/
def Console.GetCommands (c : Console) :
    List (String × List (Option FlagsCommand)) × List String :=
  c.current.cmd.groups.foldl
    (fun acc g =>
      (g.cmds.foldl (fun m cmd => mapAppend m g.Name cmd.cmd) acc.1,
       acc.2 ++ [g.Name]))
    ([], [])

/-- Claim C2: `AddCommand` with a nil data factory returns the nil
sentinel and leaves the receiver's tree (including every group's child
count) completely unchanged. -/
theorem c2_addcommand_nil_data (c : Command) (n s l g : String)
    (f : List String) :
    (c.AddCommand n s l g f none).1 = none ∧
    (c.AddCommand n s l g f none).2 = c ∧
    (c.AddCommand n s l g f none).2.groups.map (fun grp => grp.cmds.length) =
      c.groups.map (fun grp => grp.cmds.length) := by
  refine ⟨rfl, rfl, rfl⟩

/-- Claim C5: `HideCommands` (the spec's `Filter`) is an idempotent add:
on a present tag it is the identity, and applying it twice equals
applying it once. -/
theorem c5_filter_idempotent (c : Console) (tag : String) :
    (tag ∈ c.filters → c.HideCommands tag = c) ∧
    (c.HideCommands tag).HideCommands tag = c.HideCommands tag := by
  constructor
  · intro h
    simp [Console.HideCommands, h]
  · by_cases h : tag ∈ c.filters
    · simp [Console.HideCommands, h]
    · simp [Console.HideCommands, h]

/-- A console with an empty tree and the given filter list, used to
instantiate universally quantified theorems at concrete inputs. -/
def consoleWithFilters (fs : List String) : Console :=
  { current := { Name := "", cmd := newCommand, parser := initParser 0,
                 prompt := none }
    filters := fs
    parserOpts := 0
    config := NewDefaultConfig
    shell := { MultilinePrompt := " > ", Multiline := true,
               InputMode := RlInputMode.Vim }
    PreOutputNewline := true }

/-- Witness for C5: on the console whose filter set is `["x"]`, adding
the already-present tag `"x"` leaves it unchanged. -/
theorem c5_filter_idempotent_witness :
    (consoleWithFilters ["x"]).HideCommands "x" = consoleWithFilters ["x"] :=
  (c5_filter_idempotent (consoleWithFilters ["x"]) "x").1 (by decide)

/-- The spec-side flattening: all groups' commands in group-insertion
order then node-insertion order, group boundaries discarded. -/
def flattenGroups : List (GroupOf Command) → List Command
  | [] => []
  | g :: t => g.cmds ++ flattenGroups t

theorem findInCmds_eq_find? (cs : List Command) (name : String) :
    findInCmds cs name = cs.find? (fun c => c.Name == name) := by
  induction cs with
  | nil => rfl
  | cons c t ih =>
    simp only [findInCmds]
    by_cases h : (c.Name == name) = true
    · rw [if_pos h]
      exact (List.find?_cons_of_pos t h).symm
    · rw [if_neg h, ih]
      exact (List.find?_cons_of_neg t (by simpa using h)).symm

theorem findInGroups_eq_find? (gs : List (GroupOf Command)) (name : String) :
    findInGroups gs name = (flattenGroups gs).find? (fun c => c.Name == name) := by
  induction gs with
  | nil => rfl
  | cons g t ih =>
    simp only [findInGroups, flattenGroups, findInCmds_eq_find?, ih]
    cases h : g.cmds.find? (fun c => c.Name == name) with
    | none => rw [List.find?_append, h]; rfl
    | some c => rw [List.find?_append, h]; rfl

/-- Claim C4: `Console.FindCommand` is exactly the first-match search of
the current context's root-level groups flattened in group-insertion then
node-insertion order (so it never recurses into subcommands), and it
returns the nil sentinel when nothing matches — in particular on an
empty context. -/
theorem c4_console_findcommand (c : Console) (name : String) :
    c.FindCommand name =
      (flattenGroups c.current.cmd.groups).find? (fun cmd => cmd.Name == name) ∧
    (c.current.cmd.groups = [] → c.FindCommand name = none) := by
  constructor
  · exact findInGroups_eq_find? _ _
  · intro h
    simp [Console.FindCommand, h, findInGroups]

/-- Witness for C4: on an empty context, `FindCommand "missing"` returns
the nil sentinel. -/
theorem c4_console_findcommand_witness :
    (consoleWithFilters []).FindCommand "missing" = none :=
  (c4_console_findcommand (consoleWithFilters []) "missing").2 rfl

theorem foldl_snoc (cs : List Command) (acc : List Command) :
    cs.foldl (fun acc2 cmd => acc2 ++ [cmd]) acc = acc ++ cs := by
  induction cs generalizing acc with
  | nil => simp
  | cons c t ih => simp [List.foldl_cons, ih]

theorem commands_eq_flatten (c : Command) :
    c.Commands = flattenGroups c.groups := by
  have key2 : ∀ (gs : List (GroupOf Command)) (acc : List Command),
      gs.foldl (fun acc g => acc ++ g.cmds) acc = acc ++ flattenGroups gs := by
    intro gs
    induction gs with
    | nil => intro acc; simp [flattenGroups]
    | cons g t ih =>
      intro acc
      simp [List.foldl_cons, ih, flattenGroups]
  have hfun : (fun (acc : List Command) (g : GroupOf Command) =>
      g.cmds.foldl (fun acc2 cmd => acc2 ++ [cmd]) acc) =
      (fun acc g => acc ++ g.cmds) := by
    funext acc g
    exact foldl_snoc g.cmds acc
  unfold Command.Commands
  rw [hfun, key2]
  simp

/-- One `AddCommand` call's worth of arguments. -/
structure AddSpec where
  name : String
  short : String
  long : String
  group : String
  filters : List String
  data : Option Nat
deriving DecidableEq, Repr

/-- Folding a sequence of `AddCommand` calls over one parent node. -/
def addAll (c : Command) (specs : List AddSpec) : Command :=
  specs.foldl
    (fun acc sp =>
      (acc.AddCommand sp.name sp.short sp.long sp.group sp.filters sp.data).2)
    c

/-- The node a successful `AddCommand` call creates for `sp`. -/
def mkFresh (sp : AddSpec) : Command :=
  freshNode sp.name sp.short sp.long sp.group sp.filters sp.data

theorem addAll_single_group (g : String) (specs : List AddSpec)
    (h : ∀ sp ∈ specs, sp.group = g ∧ sp.data.isSome) :
    ∀ (c : Command) (cs : List Command), c.groups = [⟨g, cs⟩] →
      (addAll c specs).groups = [⟨g, cs ++ specs.map mkFresh⟩] := by
  induction specs with
  | nil => intro c cs hc; simpa [addAll] using hc
  | cons sp rest ih =>
    intro c cs hc
    obtain ⟨hg, hd⟩ := h sp (List.mem_cons_self sp rest)
    obtain ⟨d, hd2⟩ := Option.isSome_iff_exists.mp hd
    have step :
        (c.AddCommand sp.name sp.short sp.long sp.group sp.filters sp.data).2
          = c.withGroups [⟨g, cs ++ [mkFresh sp]⟩] := by
      rw [hd2]
      simp only [Command.AddCommand, hc, hg]
      simp [appendToLastMatching, mkFresh, freshNode, hd2, hg]
    have hrest : ∀ sp2 ∈ rest, sp2.group = g ∧ sp2.data.isSome := by
      intro sp2 hsp2
      exact h sp2 (List.mem_cons_of_mem sp hsp2)
    have hgroups : (c.withGroups [⟨g, cs ++ [mkFresh sp]⟩]).groups
        = [⟨g, cs ++ [mkFresh sp]⟩] := by
      cases c; rfl
    calc (addAll c (sp :: rest)).groups
        = (addAll (c.withGroups [⟨g, cs ++ [mkFresh sp]⟩]) rest).groups := by
          simp only [addAll, List.foldl_cons, step]
      _ = [⟨g, (cs ++ [mkFresh sp]) ++ rest.map mkFresh⟩] :=
          ih hrest _ _ hgroups
      _ = [⟨g, cs ++ (sp :: rest).map mkFresh⟩] := by
          simp

/-- Claim C3: `Commands()` flattens the child groups in group-insertion
then node-insertion order; in particular a sequence of `AddCommand` calls
all under one group name, starting from a fresh parent, yields exactly
the created nodes in call order. -/
theorem c3_commands_call_order (specs : List AddSpec) (g : String)
    (h : ∀ sp ∈ specs, sp.group = g ∧ sp.data.isSome) :
    (∀ c : Command, c.Commands = flattenGroups c.groups) ∧
    (addAll newCommand specs).Commands = specs.map mkFresh := by
  refine ⟨commands_eq_flatten, ?_⟩
  cases specs with
  | nil => simp [addAll, commands_eq_flatten, newCommand, flattenGroups]
  | cons sp rest =>
    obtain ⟨hg, hd⟩ := h sp (List.mem_cons_self sp rest)
    obtain ⟨d, hd2⟩ := Option.isSome_iff_exists.mp hd
    have step :
        (newCommand.AddCommand sp.name sp.short sp.long sp.group sp.filters
          sp.data).2 = newCommand.withGroups [⟨g, [mkFresh sp]⟩] := by
      rw [hd2]
      simp [Command.AddCommand, newCommand, Command.groups, Command.withGroups,
        mkFresh, freshNode, hd2, hg]
    have hrest : ∀ sp2 ∈ rest, sp2.group = g ∧ sp2.data.isSome := by
      intro sp2 hsp2
      exact h sp2 (List.mem_cons_of_mem sp hsp2)
    have hfinal := addAll_single_group g rest hrest
      (newCommand.withGroups [⟨g, [mkFresh sp]⟩]) [mkFresh sp] rfl
    have : addAll newCommand (sp :: rest)
        = addAll (newCommand.withGroups [⟨g, [mkFresh sp]⟩]) rest := by
      simp only [addAll, List.foldl_cons, step]
    rw [commands_eq_flatten, this, hfinal]
    simp [flattenGroups]

/-- Witness for C3: two same-group calls on a fresh parent produce the
two created nodes in call order. -/
theorem c3_commands_call_order_witness :
    (addAll newCommand
      [⟨"alpha", "s1", "l1", "grp", [], some 1⟩,
       ⟨"beta", "s2", "l2", "grp", ["w"], some 2⟩]).Commands =
    [⟨"alpha", "s1", "l1", "grp", [], some 1⟩,
     ⟨"beta", "s2", "l2", "grp", ["w"], some 2⟩].map mkFresh :=
  (c3_commands_call_order _ "grp" (by decide)).2

/-- Claim C9: `Command.Add` does not attach the passed struct: it is the
six-field `AddCommand` call, the returned (and attached) node is freshly
built with empty child groups, option groups, completion maps and no
generated handle, and the whole result depends on nothing of the passed
struct beyond its `Name`, `ShortDescription`, `LongDescription`, `Group`,
`Filters` and `Data` fields. -/
theorem c9_add_attaches_fresh_node (c : Command) (cmd : Command)
    (h : cmd.Data.isSome) :
    c.Add cmd = c.AddCommand cmd.Name cmd.ShortDescription
        cmd.LongDescription cmd.Group cmd.Filters cmd.Data ∧
    (c.Add cmd).1 = some (freshNode cmd.Name cmd.ShortDescription
        cmd.LongDescription cmd.Group cmd.Filters cmd.Data) ∧
    (freshNode cmd.Name cmd.ShortDescription cmd.LongDescription cmd.Group
        cmd.Filters cmd.Data).groups = [] ∧
    (freshNode cmd.Name cmd.ShortDescription cmd.LongDescription cmd.Group
        cmd.Filters cmd.Data).opts = [] ∧
    (freshNode cmd.Name cmd.ShortDescription cmd.LongDescription cmd.Group
        cmd.Filters cmd.Data).comps = emptyComps ∧
    (freshNode cmd.Name cmd.ShortDescription cmd.LongDescription cmd.Group
        cmd.Filters cmd.Data).cmd = none ∧
    (∀ cmd2 : Command, cmd2.Name = cmd.Name →
      cmd2.ShortDescription = cmd.ShortDescription →
      cmd2.LongDescription = cmd.LongDescription → cmd2.Group = cmd.Group →
      cmd2.Filters = cmd.Filters → cmd2.Data = cmd.Data →
      c.Add cmd2 = c.Add cmd) := by
  obtain ⟨d, hd⟩ := Option.isSome_iff_exists.mp h
  refine ⟨rfl, ?_, ?_, rfl, rfl, ?_, ?_⟩
  · simp only [Command.Add, Command.AddCommand, hd, freshNode, Option.map_some']
    split <;> rfl
  · simp [freshNode, Command.groups]
  · simp [freshNode, Command.cmd]
  · intro cmd2 h1 h2 h3 h4 h5 h6
    simp [Command.Add, h1, h2, h3, h4, h5, h6]

/-- A populated command struct (with child groups, options, hooks and a
stale handle already set) used to instantiate C9 concretely. -/
def populatedCmd : Command :=
  .mk "net" "short" "long" "admin" ["windows"] true (some 7)
    (some ("old", "x", "y", 3)) (some ⟨true, true⟩) [⟨"o", "option group", 5⟩]
    [⟨"sub", [newCommand]⟩] ⟨[("a", 1)], [], [], []⟩

/-- Witness for C9: adding a populated struct attaches the fresh
six-field node, not the struct itself. -/
theorem c9_add_attaches_fresh_node_witness :
    (newCommand.Add populatedCmd).1 = some (freshNode populatedCmd.Name
      populatedCmd.ShortDescription populatedCmd.LongDescription
      populatedCmd.Group populatedCmd.Filters populatedCmd.Data) :=
  (c9_add_attaches_fresh_node newCommand populatedCmd (by decide)).2.1

theorem foldl_handles (cs : List Command) (acc : List FlagsCommand) :
    cs.foldl
      (fun acc2 cmd =>
        match cmd.cmd with
        | some fc => acc2 ++ [fc]
        | none => acc2)
      acc = acc ++ cs.filterMap (fun n => n.cmd) := by
  induction cs generalizing acc with
  | nil => simp
  | cons c t ih =>
    cases h : c.cmd with
    | none => simp [List.foldl_cons, h, ih, List.filterMap_cons, h]
    | some fc => simp [List.foldl_cons, h, ih, List.filterMap_cons, h]

theorem goflags_eq_filterMap (c : Command) :
    c.GoFlagsCommands = (flattenGroups c.groups).filterMap (fun n => n.cmd) := by
  have key2 : ∀ (gs : List (GroupOf Command)) (acc : List FlagsCommand),
      gs.foldl (fun acc g => acc ++ g.cmds.filterMap (fun n => n.cmd)) acc
        = acc ++ (flattenGroups gs).filterMap (fun n => n.cmd) := by
    intro gs
    induction gs with
    | nil => intro acc; simp [flattenGroups]
    | cons g t ih => intro acc; simp [List.foldl_cons, ih, flattenGroups]
  have hfun : (fun (acc : List FlagsCommand) (g : GroupOf Command) =>
      g.cmds.foldl
        (fun acc2 cmd =>
          match cmd.cmd with
          | some fc => acc2 ++ [fc]
          | none => acc2)
        acc) =
      (fun acc g => acc ++ g.cmds.filterMap (fun n => n.cmd)) := by
    funext acc g
    exact foldl_handles g.cmds acc
  unfold Command.GoFlagsCommands
  rw [hfun, key2]
  simp

/-- The association list that the `GetCommands` Go map ends up holding:
one entry per group that has at least one command (an empty group never
assigns its key), listing the per-command generated handles, nil
included. -/
def entriesOf : List (GroupOf Command) → List (String × List (Option FlagsCommand))
  | [] => []
  | g :: t =>
    if g.cmds.isEmpty then entriesOf t
    else (g.Name, g.cmds.map (fun n => n.cmd)) :: entriesOf t

theorem mapAppend_fresh (m : List (String × List (Option FlagsCommand)))
    (k : String) (v : Option FlagsCommand)
    (h : ∀ e ∈ m, (e.1 == k) = false) :
    mapAppend m k v = m ++ [(k, [v])] := by
  have : m.any (fun e => e.1 == k) = false := by
    rw [List.any_eq_false]
    intro e he
    simp [h e he]
  simp [mapAppend, this]

theorem map_noop_of_no_key (m : List (String × List (Option FlagsCommand)))
    (k : String) (v : Option FlagsCommand)
    (h : ∀ e ∈ m, (e.1 == k) = false) :
    m.map (fun e => if (e.1 == k) = true then (e.1, e.2 ++ [v]) else e) = m := by
  induction m with
  | nil => rfl
  | cons e t ih =>
    have he := h e (List.mem_cons_self e t)
    simp only [List.map_cons, he]
    rw [ih (fun e2 he2 => h e2 (List.mem_cons_of_mem e he2))]
    simp

theorem mapAppend_existing_last (m : List (String × List (Option FlagsCommand)))
    (k : String) (v : Option FlagsCommand) (l : List (Option FlagsCommand))
    (h : ∀ e ∈ m, (e.1 == k) = false) :
    mapAppend (m ++ [(k, l)]) k v = m ++ [(k, l ++ [v])] := by
  have hany : (m ++ [(k, l)]).any (fun e => e.1 == k) = true := by
    rw [List.any_eq_true]
    exact ⟨(k, l), by simp⟩
  simp only [mapAppend, hany, if_true, List.map_append]
  rw [map_noop_of_no_key m k v h]
  simp

theorem innerFold_entry (k : String) (cmds : List Command)
    (m : List (String × List (Option FlagsCommand)))
    (l : List (Option FlagsCommand))
    (h : ∀ e ∈ m, (e.1 == k) = false) :
    cmds.foldl (fun m2 cmd => mapAppend m2 k cmd.cmd) (m ++ [(k, l)])
      = m ++ [(k, l ++ cmds.map (fun n => n.cmd))] := by
  induction cmds generalizing l with
  | nil => simp
  | cons c t ih =>
    simp only [List.foldl_cons]
    rw [mapAppend_existing_last m k c.cmd l h, ih (l ++ [c.cmd])]
    simp

theorem innerFold (k : String) (cmds : List Command)
    (m : List (String × List (Option FlagsCommand)))
    (h : ∀ e ∈ m, (e.1 == k) = false) :
    cmds.foldl (fun m2 cmd => mapAppend m2 k cmd.cmd) m
      = if cmds.isEmpty then m else m ++ [(k, cmds.map (fun n => n.cmd))] := by
  cases cmds with
  | nil => simp
  | cons c t =>
    simp only [List.isEmpty_cons, Bool.false_eq_true, if_false, List.foldl_cons]
    rw [mapAppend_fresh m k c.cmd h, innerFold_entry k t m [c.cmd] h]
    simp

theorem getcommands_fold (gs : List (GroupOf Command)) :
    ∀ (m : List (String × List (Option FlagsCommand))) (names : List String),
    (gs.map (fun g => g.Name)).Nodup →
    (∀ e ∈ m, ∀ g ∈ gs, (e.1 == g.Name) = false) →
    gs.foldl
      (fun acc g =>
        (g.cmds.foldl (fun m2 cmd => mapAppend m2 g.Name cmd.cmd) acc.1,
         acc.2 ++ [g.Name]))
      (m, names)
      = (m ++ entriesOf gs, names ++ gs.map (fun g => g.Name)) := by
  induction gs with
  | nil => intro m names _ _; simp [entriesOf]
  | cons g t ih =>
    intro m names hN hkeys
    simp only [List.foldl_cons]
    have hfresh : ∀ e ∈ m, (e.1 == g.Name) = false := by
      intro e he
      exact hkeys e he g (List.mem_cons_self g t)
    rw [innerFold g.Name g.cmds m hfresh]
    have hNt : (t.map (fun g => g.Name)).Nodup := (List.nodup_cons.mp hN).2
    have hgnotin : g.Name ∉ t.map (fun g2 => g2.Name) := (List.nodup_cons.mp hN).1
    cases hE : g.cmds.isEmpty with
    | true =>
      simp only [hE, if_true]
      rw [ih m (names ++ [g.Name]) hNt
        (fun e he g2 hg2 => hkeys e he g2 (List.mem_cons_of_mem g hg2))]
      simp [entriesOf, hE]
    | false =>
      simp only [hE, Bool.false_eq_true, if_false]
      have hkeys2 : ∀ e ∈ m ++ [(g.Name, g.cmds.map (fun n => n.cmd))],
          ∀ g2 ∈ t, (e.1 == g2.Name) = false := by
        intro e he g2 hg2
        rcases List.mem_append.mp he with h1 | h1
        · exact hkeys e h1 g2 (List.mem_cons_of_mem g hg2)
        · have he2 : e = (g.Name, g.cmds.map (fun n => n.cmd)) := by simpa using h1
          subst he2
          simp only [beq_eq_false_iff_ne, ne_eq]
          intro hcontra
          exact hgnotin (hcontra ▸ List.mem_map_of_mem (fun g2 => g2.Name) hg2)
      rw [ih (m ++ [(g.Name, g.cmds.map (fun n => n.cmd))]) (names ++ [g.Name])
        hNt hkeys2]
      simp [entriesOf, hE]

theorem entriesOf_key_mem (t : List (GroupOf Command))
    (e : String × List (Option FlagsCommand)) (he : e ∈ entriesOf t) :
    e.1 ∈ t.map (fun g => g.Name) := by
  induction t with
  | nil => cases he
  | cons g2 t2 ih2 =>
    by_cases h2 : g2.cmds.isEmpty = true
    · simp only [entriesOf, h2, if_true] at he
      exact List.mem_cons_of_mem _ (ih2 he)
    · simp only [entriesOf, h2, Bool.false_eq_true, if_false] at he
      rcases List.mem_cons.mp he with h3 | h3
      · subst h3; simp
      · exact List.mem_cons_of_mem _ (ih2 h3)

theorem mapGet_cons_ne (k0 : String) (l0 : List (Option FlagsCommand))
    (rest : List (String × List (Option FlagsCommand))) (k : String)
    (h : (k0 == k) = false) :
    mapGet ((k0, l0) :: rest) k = mapGet rest k := by
  unfold mapGet
  rw [List.find?_cons_of_neg]
  simp [h]

theorem mapGet_cons_eq (k0 : String) (l0 : List (Option FlagsCommand))
    (rest : List (String × List (Option FlagsCommand))) (k : String)
    (h : (k0 == k) = true) :
    mapGet ((k0, l0) :: rest) k = some l0 := by
  unfold mapGet
  rw [List.find?_cons_of_pos]
  · rfl
  · exact h

theorem mapGet_entriesOf (gs : List (GroupOf Command)) (g : GroupOf Command)
    (hN : (gs.map (fun g => g.Name)).Nodup) (hg : g ∈ gs) :
    mapGet (entriesOf gs) g.Name
      = if g.cmds.isEmpty then none else some (g.cmds.map (fun n => n.cmd)) := by
  induction gs with
  | nil => cases hg
  | cons g0 t ih =>
    have hNt : (t.map (fun g => g.Name)).Nodup := (List.nodup_cons.mp hN).2
    have hg0notin : g0.Name ∉ t.map (fun g2 => g2.Name) := (List.nodup_cons.mp hN).1
    rcases List.mem_cons.mp hg with h1 | h1
    · subst h1
      cases hE : g.cmds.isEmpty with
      | true =>
        simp only [entriesOf, hE, if_true]
        rw [mapGet, List.find?_eq_none.mpr]
        · rfl
        · intro e he
          have hkey : e.1 ∈ t.map (fun g2 => g2.Name) := entriesOf_key_mem t e he
          intro hcontra
          have hc2 : e.1 = g.Name := by simpa using hcontra
          exact hg0notin (hc2 ▸ hkey)
      | false =>
        simp only [entriesOf, hE, Bool.false_eq_true, if_false]
        rw [mapGet_cons_eq _ _ _ _ (by simp)]
    · have hne : (g0.Name == g.Name) = false := by
        simp only [beq_eq_false_iff_ne, ne_eq]
        intro hcontra
        exact hg0notin (hcontra.symm ▸ List.mem_map_of_mem (fun g2 => g2.Name) h1)
      cases hE0 : g0.cmds.isEmpty with
      | true =>
        simp only [entriesOf, hE0, if_true]
        exact ih hNt h1
      | false =>
        simp only [entriesOf, hE0, Bool.false_eq_true, if_false]
        rw [mapGet_cons_ne _ _ _ _ hne]
        exact ih hNt h1

/-- Claim C10: `Console.GetCommands` returns, per group of the current
context, one map entry per persistent root-level command — a command
whose generated handle is nil contributes a nil entry rather than being
omitted — while `Command.GoFlagsCommands` skips nil handles. -/
theorem c10_getcommands_keeps_nil_handles (c : Console)
    (hN : (c.current.cmd.groups.map (fun g => g.Name)).Nodup) :
    (c.GetCommands).2 = c.current.cmd.groups.map (fun g => g.Name) ∧
    (∀ g ∈ c.current.cmd.groups,
      mapGet (c.GetCommands).1 g.Name =
        if g.cmds.isEmpty then none
        else some (g.cmds.map (fun n => n.cmd))) ∧
    c.current.cmd.GoFlagsCommands =
      (flattenGroups c.current.cmd.groups).filterMap (fun n => n.cmd) := by
  have hfold := getcommands_fold c.current.cmd.groups [] [] hN
    (by intro e he; cases he)
  have h1 : c.GetCommands =
      (entriesOf c.current.cmd.groups,
       c.current.cmd.groups.map (fun g => g.Name)) := by
    unfold Console.GetCommands
    rw [hfold]
    simp
  refine ⟨by rw [h1], ?_, goflags_eq_filterMap _⟩
  intro g hg
  rw [h1]
  exact mapGet_entriesOf _ g hN hg

/-- A group holding one never-generated command, used to instantiate C10
concretely. -/
def demoAdminGroup : GroupOf Command :=
  ⟨"admin", [freshNode "drain" "" "" "admin" ["dangerous"] (some 2)]⟩

/-- A console whose current context has a generated root command and a
never-generated one in a second group. -/
def demoConsole : Console :=
  { consoleWithFilters [] with
    current := { (consoleWithFilters []).current with
      cmd := newCommand.withGroups
        [⟨"", [(freshNode "status" "" "" "" [] (some 1)).withCmd
            (some ⟨false, false⟩)]⟩,
         demoAdminGroup] } }

/-- Witness for C10: the never-generated `drain` command still produces a
(nil) entry in the `GetCommands` map of its group. -/
theorem c10_getcommands_keeps_nil_handles_witness :
    mapGet (demoConsole.GetCommands).1 demoAdminGroup.Name =
      if demoAdminGroup.cmds.isEmpty then none
      else some (demoAdminGroup.cmds.map (fun n => n.cmd)) :=
  (c10_getcommands_keeps_nil_handles demoConsole (by decide)).2.1
    demoAdminGroup (List.mem_cons_of_mem _ (List.mem_cons_self _ _))

/-- Does the node's filter tag list intersect the console's filter set?
This is the condition of the inner double loop of `hideCommands` and the
spec's "non-empty intersection" wording. -/
def intersectsB (a b : List String) : Bool := a.any (fun t => b.contains t)

/-- One command of the `hideCommands` pass: when the node has a generated
handle and some tag of `cmd.Filters` equals some active console filter,
the handle is marked hidden (`cmd.cmd.Hidden = true`, then
`continue nextCommand`); otherwise the node is untouched.  Nested
subcommand groups are never visited. -/
def hideOne (filters : List String) (cmd : Command) : Command :=
  match cmd.cmd with
  | none => cmd
  | some fc =>
    if intersectsB cmd.Filters filters then
      cmd.withCmd (some { fc with Hidden := true })
    else cmd

/-- `Console.hideCommands` of the source: for each ROOT-LEVEL command
group of the current context, adjust each command's generated handle. -/
def Console.hideCommands (c : Console) : Console :=
  { c with current := { c.current with
      cmd := c.current.cmd.withGroups
        (c.current.cmd.groups.map
          (fun g => ⟨g.Name, g.cmds.map (hideOne c.filters)⟩)) } }

/-- What the claim says the pass does to one node: the handle's hidden
flag becomes exactly "filter tags intersect the filter set". -/
def hiddenAsSpecified (filters : List String) (n : Command) : Command :=
  n.withCmd (n.cmd.map
    (fun fc => ⟨intersectsB n.Filters filters, fc.SubcommandsOptional⟩))

/-- A node's handle is either absent or not yet hidden (the state of a
freshly generated handle). -/
def handleUnhidden (n : Command) : Bool :=
  match n.cmd with
  | none => true
  | some fc => !fc.Hidden

theorem withGroups_groups (c : Command) (gs : List (GroupOf Command)) :
    (c.withGroups gs).groups = gs := by
  cases c; rfl

theorem withCmd_self (c : Command) : c.withCmd c.cmd = c := by
  cases c; rfl

theorem hideOne_groups (filters : List String) (n : Command) :
    (hideOne filters n).groups = n.groups := by
  cases n with
  | mk n1 s l g fl so d gen cc o gs cm =>
    cases cc with
    | none => rfl
    | some fc =>
      by_cases hi : intersectsB fl filters = true
      · simp [hideOne, Command.cmd, Command.Filters, Command.withCmd,
          Command.groups, hi]
      · simp [hideOne, Command.cmd, Command.Filters, hi]

theorem hideOne_eq_spec (filters : List String) (n : Command)
    (h : handleUnhidden n = true) :
    hideOne filters n = hiddenAsSpecified filters n := by
  cases n with
  | mk n1 s l g fl so d gen cc o gs cm =>
    cases cc with
    | none => rfl
    | some fc =>
      have hfc : fc.Hidden = false := by
        simpa [handleUnhidden, Command.cmd] using h
      cases fc with
      | mk hid sub =>
        simp only at hfc
        subst hfc
        by_cases hi : intersectsB fl filters = true
        · simp [hideOne, hiddenAsSpecified, Command.cmd, Command.Filters,
            Command.withCmd, hi]
        · have hi2 : intersectsB fl filters = false := by simpa using hi
          simp [hideOne, hiddenAsSpecified, Command.cmd, Command.Filters,
            Command.withCmd, hi2]

/-- Claim C1 (amended): `hideCommands` only visits the ROOT-LEVEL groups
of the current context.  When every root-level handle is still unhidden
(as freshly generated handles are), each root-level node's handle ends up
hidden exactly when its filter tags intersect the filter set — and the
pass leaves every node's nested subcommand groups untouched. -/
theorem c1_hide_root_level_only (c : Console)
    (h : ∀ g ∈ c.current.cmd.groups, ∀ n ∈ g.cmds, handleUnhidden n = true) :
    (c.hideCommands).current.cmd.groups =
      c.current.cmd.groups.map
        (fun g => ⟨g.Name, g.cmds.map (hiddenAsSpecified c.filters)⟩) ∧
    (∀ g ∈ c.current.cmd.groups, ∀ n ∈ g.cmds,
      (hideOne c.filters n).groups = n.groups) := by
  constructor
  · show (c.current.cmd.withGroups _).groups = _
    rw [withGroups_groups]
    apply List.map_congr_left
    intro g hg
    have : g.cmds.map (hideOne c.filters)
        = g.cmds.map (hiddenAsSpecified c.filters) := by
      apply List.map_congr_left
      intro n hn
      exact hideOne_eq_spec c.filters n (h g hg n hn)
    rw [this]
  · intro g _ n _
    exact hideOne_groups c.filters n

/-- A nested subcommand carrying the filter tag `"w"` and a freshly
generated, unhidden handle. -/
def nestedSub : Command :=
  (freshNode "sub" "" "" "" ["w"] (some 2)).withCmd (some ⟨false, false⟩)

/-- A root-level command (no tags, fresh handle) holding `nestedSub` in
its child group. -/
def parentWithSub : Command :=
  ((freshNode "parent" "" "" "" [] (some 1)).withCmd
    (some ⟨false, false⟩)).withGroups [⟨"", [nestedSub]⟩]

/-- A console whose active filter set is `["w"]` and whose current
context has `parentWithSub` as its only root-level command. -/
def consoleNested : Console :=
  { consoleWithFilters ["w"] with
    current := { (consoleWithFilters ["w"]).current with
      cmd := newCommand.withGroups [⟨"", [parentWithSub]⟩] } }

/-- The first nested subcommand of the first root-level command of the
current context. -/
def firstNested (c : Console) : Command :=
  (((c.current.cmd.groups.getD 0 ⟨"", []⟩).cmds.getD 0
    newCommand).groups.getD 0 ⟨"", []⟩).cmds.getD 0 newCommand

/-- Counterexample to claim C1 as stated: after the visibility pass, the
generated handle of a NESTED subcommand whose filter tags intersect the
active filter set is still not hidden (the pass never descends below the
root-level groups), so "hidden iff the tags intersect the filter set"
fails for nested handles. -/
theorem c1_hide_counterexample :
    consoleNested.filters = ["w"] ∧
    (firstNested consoleNested.hideCommands).Filters = ["w"] ∧
    intersectsB (firstNested consoleNested.hideCommands).Filters
      consoleNested.filters = true ∧
    (firstNested consoleNested.hideCommands).cmd = some ⟨false, false⟩ := by
  refine ⟨rfl, rfl, rfl, rfl⟩

/-- Witness for the amended C1: on `consoleNested` (all handles fresh),
the pass rewrites the root-level groups exactly as specified. -/
theorem c1_hide_root_level_only_witness :
    (consoleNested.hideCommands).current.cmd.groups =
      consoleNested.current.cmd.groups.map
        (fun g => ⟨g.Name, g.cmds.map
          (hiddenAsSpecified consoleNested.filters)⟩) :=
  (c1_hide_root_level_only consoleNested (by decide)).1

/-- `copy(c.filters[i:], c.filters[i+1:])` where `c.filters = A[0:len]`:
positions `j` with `i ≤ j < len - 1` receive `A[j+1]` (memmove
semantics, overlap-safe); all other positions of the backing array are
unchanged. -/
def goCopyShift (A : List String) (i len : Nat) : List String :=
  (List.range A.length).map
    (fun j => if i ≤ j && j + 1 < len then A.getD (j + 1) "" else A.getD j "")

/-- The `range`-loop of `Console.ShowCommands`, embedded over the state
`(A, len)` where `A` is the backing array (Go's `range` reads `A[i]`
through the shared array at each iteration while the iteration count is
frozen at the initial length, carried here as `fuel`) and `len` is the
current length of the repeatedly truncated `c.filters` slice.  A match at
an index `i` with `i + 1 > len` makes the re-slice
`c.filters[i:]` / `c.filters[i+1:]` violate `low ≤ high = len`: a Go
runtime panic, modelled as `none`.  A match with `i < len` shifts
`A[i+1:len]` down one slot, blanks `A[len-1]` and truncates. -/
def showLoop (filter : String) : List String → Nat → Nat → Nat →
    Option (List String × Nat)
  | A, len, _, 0 => some (A, len)
  | A, len, i, fuel + 1 =>
    if A.getD i "" == filter then
      if i + 1 ≤ len then
        showLoop filter ((goCopyShift A i len).set (len - 1) "") (len - 1)
          (i + 1) fuel
      else none
    else showLoop filter A len (i + 1) fuel

/-- `Console.ShowCommands` of the source (the spec's `Unfilter`): run the
removal loop over the current filter slice; `none` is the Go runtime
panic, otherwise the console keeps the truncated slice. -/
def Console.ShowCommands (c : Console) (filter : String) : Option Console :=
  match showLoop filter c.filters c.filters.length 0 c.filters.length with
  | none => none
  | some (A, len) => some { c with filters := A.take len }

/-- Claim C6 is violated by the code: the filter state `["", "y"]` is
reachable through two `HideCommands` calls, and `ShowCommands ""` on it
panics instead of removing `""` and keeping `["y"]`: after the first
removal the loop keeps iterating, reads the blanked slot `A[1] = ""`,
matches it again and re-slices `c.filters[2:]` on a slice of length 1 —
a slice-bounds panic.  The claim says removal always succeeds, preserving
the remaining tags. -/
theorem c6_showcommands_panics :
    ((consoleWithFilters []).HideCommands "").HideCommands "y" =
      consoleWithFilters ["", "y"] ∧
    (consoleWithFilters ["", "y"]).ShowCommands "" = none ∧
    (consoleWithFilters ["x", "y"]).ShowCommands "x" =
      some (consoleWithFilters ["y"]) := by
  refine ⟨rfl, rfl, rfl⟩

mutual
/-- Modelled from the spec (step 3 of the Rebuild algorithm; the source's
`bindCommandGroup` is not under src/): generating a node invokes its data
factory, registers the instance with the parser under the node's
name/descriptions (the spawner of `Command.AddCommand`), stores the fresh
go-flags handle — unhidden, with the node's `SubcommandsOptional`
propagated — back onto the node, and recurses into the node's own child
groups. -/
def generateCmd : Command → Command
  | .mk n s l g fl so d gen _ o gs cm =>
      .mk n s l g fl so d gen (some ⟨false, so⟩) o (generateGroups gs) cm

/-- Modelled from the spec: generate a list of groups in order. -/
def generateGroups : List (GroupOf Command) → List (GroupOf Command)
  | [] => []
  | g :: t => generateGroup g :: generateGroups t

/-- Modelled from the spec: generate one group's commands in order. -/
def generateGroup : GroupOf Command → GroupOf Command
  | ⟨n, cs⟩ => ⟨n, generateCmds cs⟩

/-- Modelled from the spec: generate a list of commands in order. -/
def generateCmds : List Command → List Command
  | [] => []
  | c :: t => generateCmd c :: generateCmds t
end

mutual
/-- Every node of the subtree rooted at this command carries a generated
handle. -/
def cmdAllGenerated : Command → Bool
  | .mk _ _ _ _ _ _ _ _ c _ gs _ => c.isSome && groupsAllGenerated gs

/-- Every node inside these groups carries a generated handle. -/
def groupsAllGenerated : List (GroupOf Command) → Bool
  | [] => true
  | g :: t => cmdsAllGenerated g.cmds && groupsAllGenerated t

/-- Every node inside these commands' subtrees carries a generated
handle. -/
def cmdsAllGenerated : List Command → Bool
  | [] => true
  | c :: t => cmdAllGenerated c && cmdsAllGenerated t
end

mutual
theorem generateCmd_allGenerated :
    ∀ c : Command, cmdAllGenerated (generateCmd c) = true
  | .mk n s l g fl so d gen cc o gs cm => by
    simp [generateCmd, cmdAllGenerated, generateGroups_allGenerated gs]

theorem generateGroups_allGenerated :
    ∀ gs : List (GroupOf Command), groupsAllGenerated (generateGroups gs) = true
  | [] => by simp [generateGroups, groupsAllGenerated]
  | ⟨n, cs⟩ :: t => by
    simp [generateGroups, generateGroup, groupsAllGenerated,
      generateCmds_allGenerated cs, generateGroups_allGenerated t]

theorem generateCmds_allGenerated :
    ∀ cs : List Command, cmdsAllGenerated (generateCmds cs) = true
  | [] => by simp [generateCmds, cmdsAllGenerated]
  | c :: t => by
    simp [generateCmds, cmdsAllGenerated, generateCmd_allGenerated c,
      generateCmds_allGenerated t]
end

theorem hideOne_allGenerated (f : List String) (n : Command) :
    cmdAllGenerated (hideOne f n) = cmdAllGenerated n := by
  cases n with
  | mk n1 s l g fl so d gen cc o gs cm =>
    cases cc with
    | none => rfl
    | some fc =>
      by_cases hi : intersectsB fl f = true
      · simp [hideOne, Command.cmd, Command.Filters, Command.withCmd,
          cmdAllGenerated, hi]
      · simp [hideOne, Command.cmd, Command.Filters, hi]

theorem hideMap_cmdsAllGenerated (f : List String) (cs : List Command) :
    cmdsAllGenerated (cs.map (hideOne f)) = cmdsAllGenerated cs := by
  induction cs with
  | nil => rfl
  | cons c t ih => simp [cmdsAllGenerated, hideOne_allGenerated, ih]

theorem hideMap_groupsAllGenerated (f : List String)
    (gs : List (GroupOf Command)) :
    groupsAllGenerated (gs.map (fun g => ⟨g.Name, g.cmds.map (hideOne f)⟩))
      = groupsAllGenerated gs := by
  induction gs with
  | nil => rfl
  | cons g t ih =>
    cases g with
    | mk n cs => simp [groupsAllGenerated, hideMap_cmdsAllGenerated, ih]

theorem hideGen_hidden (f : List String) (n : Command) :
    (hideOne f (generateCmd n)).cmd.map (fun fc => fc.Hidden)
      = some (intersectsB n.Filters f) := by
  cases n with
  | mk n1 s l g fl so d gen cc o gs cm =>
    by_cases hi : intersectsB fl f = true
    · simp [generateCmd, hideOne, Command.cmd, Command.Filters,
        Command.withCmd, hi]
    · have hi2 : intersectsB fl f = false := by simpa using hi
      simp [generateCmd, hideOne, Command.cmd, Command.Filters, hi2]

theorem hideGen_hidden_cmds (f : List String) (cs : List Command) :
    ((generateCmds cs).map (hideOne f)).map
        (fun n => n.cmd.map (fun fc => fc.Hidden))
      = cs.map (fun n => some (intersectsB n.Filters f)) := by
  induction cs with
  | nil => rfl
  | cons c t ih => simp [generateCmds, hideGen_hidden, ih]

theorem hideGen_hidden_groups (f : List String)
    (gs : List (GroupOf Command)) :
    ((generateGroups gs).map
        (fun g => (⟨g.Name, g.cmds.map (hideOne f)⟩ : GroupOf Command))).map
        (fun g => g.cmds.map (fun n => n.cmd.map (fun fc => fc.Hidden)))
      = gs.map (fun g => g.cmds.map (fun n => some (intersectsB n.Filters f))) := by
  induction gs with
  | nil => rfl
  | cons g t ih =>
    cases g with
    | mk n cs =>
      simp only [generateGroups, generateGroup, List.map_cons, List.cons.injEq]
      exact ⟨hideGen_hidden_cmds f cs, ih⟩

theorem foldl_addgroup (opts : List optionGroup) (p : Parser) :
    opts.foldl (fun p o => p.AddGroup o.short o.long o.generator) p
      = { p with flagGroups := p.flagGroups ++
          opts.map (fun o => (o.short, o.long, o.generator)) } := by
  induction opts generalizing p with
  | nil => simp
  | cons o t ih =>
    simp only [List.foldl_cons]
    rw [ih]
    simp [Parser.AddGroup]

/-- `Console.bindCommands` of the source: reset the current context's
parser handle (`cc.initParser(c.parserOpts)`), attach each root
option-group's generated flag definitions to it, generate every root
command group recursively, and finally run the visibility pass. -/
def Console.bindCommands (c : Console) : Console :=
  let parser := c.current.cmd.opts.foldl
    (fun p o => p.AddGroup o.short o.long o.generator) (initParser c.parserOpts)
  let root := c.current.cmd.withGroups (generateGroups c.current.cmd.groups)
  Console.hideCommands
    { c with current := { c.current with parser := parser, cmd := root } }

/-- Claim C7: after a `bindCommands` cycle, (1) the context's parser is
the fresh handle carrying the Registry's static options and exactly the
flag groups produced by the context root's option-group factories —
independent of any prior parser state, so the reset happened before the
attach and the groups sit on the handle every command is generated into;
(2) every node of the regenerated tree, recursively, carries a generated
handle; (3) each root-level handle's hidden flag equals the tag/filter
intersection, so the visibility pass ran on the freshly generated
handles after generation. -/
theorem c7_bindcommands_order (c : Console) :
    (c.bindCommands).current.parser =
      ⟨c.parserOpts,
       c.current.cmd.opts.map (fun o => (o.short, o.long, o.generator))⟩ ∧
    groupsAllGenerated (c.bindCommands).current.cmd.groups = true ∧
    (c.bindCommands).current.cmd.groups.map
        (fun g => g.cmds.map (fun n => n.cmd.map (fun fc => fc.Hidden)))
      = c.current.cmd.groups.map
        (fun g => g.cmds.map (fun n => some (intersectsB n.Filters c.filters))) := by
  have hgroups : (c.bindCommands).current.cmd.groups
      = (generateGroups c.current.cmd.groups).map
          (fun g => ⟨g.Name, g.cmds.map (hideOne c.filters)⟩) := by
    show ((c.current.cmd.withGroups _).withGroups
      ((c.current.cmd.withGroups _).groups.map _)).groups = _
    rw [withGroups_groups, withGroups_groups]
  refine ⟨?_, ?_, ?_⟩
  · have hp : (c.bindCommands).current.parser
        = c.current.cmd.opts.foldl
            (fun p o => p.AddGroup o.short o.long o.generator)
            (initParser c.parserOpts) := rfl
    rw [hp, foldl_addgroup]
    simp [initParser]
  · rw [hgroups, hideMap_groupsAllGenerated, generateGroups_allGenerated]
  · rw [hgroups]
    exact hideGen_hidden_groups c.filters c.current.cmd.groups

/-- Reading `c.config.Prompts[name]` in Go: indexing a nil map yields the
zero value (a nil `*PromptConfig`), as does a missing key; a present key
may itself hold a nil pointer.  `none` is the nil pointer. -/
def goPromptsGet (m : Option (List (String × Option PromptConfig)))
    (k : String) : Option PromptConfig :=
  match m with
  | none => none
  | some l =>
    match l.find? (fun e => e.1 == k) with
    | none => none
    | some e => e.2

/-- `Console.reloadConfig` of the source: re-derives the current
context's prompt and the shell's multiline/input-mode fields from
`c.config.Prompts[c.current.Name]`.  The source dereferences that entry
unconditionally (`.MultilinePrompt`, `.Multiline`, `.Newline`), so a
missing or nil entry is a nil-pointer dereference — a Go runtime panic,
modelled as `none`.  The context's own `loadFromConfig` is not under
src/ and is modelled from the spec as storing the passed prompt
configuration on the menu. -/
def Console.reloadConfig (c : Console) : Option Console :=
  match goPromptsGet c.config.Prompts c.current.Name with
  | none => none
  | some p =>
    some { c with
      current := { c.current with prompt := some p }
      shell :=
        { MultilinePrompt := p.MultilinePrompt
          Multiline := p.Multiline
          InputMode := if c.config.InputMode == InputEmacs then .Emacs else .Vim }
      PreOutputNewline := p.Newline }

/-- The prompt configuration `LoadConfig` substitutes under the key `""`
when the loaded config has a nil `Prompts` map. -/
def loadConfigDefaultPrompt : PromptConfig :=
  { Left := "gonsole"
    Right := ""
    Newline := true
    Multiline := true
    MultilinePrompt := " > " }

/-- `Console.LoadConfig` of the source: a nil config returns with no
change; a nil `Prompts` map is replaced by a one-entry map keyed `""`, a
nil `Highlighting` map by the default highlighting; then the config is
stored and `reloadConfig` runs. -/
def Console.LoadConfig (c : Console) (conf : Option Config) : Option Console :=
  match conf with
  | none => some c
  | some conf0 =>
    let conf1 :=
      if conf0.Prompts.isSome then conf0
      else { conf0 with Prompts := some [("", some loadConfigDefaultPrompt)] }
    let defaultHl : List (String × String) :=
      [("\x7bcommand\x7d", readlineBOLD),
       ("\x7bcommand-argument\x7d", readlineFOREWHITE),
       ("\x7boption\x7d", readlineBOLD),
       ("\x7boption-argument\x7d", readlineFOREWHITE),
       ("\x7bhint-text\x7d", "\x1b[38;5;248m")]
    let conf2 :=
      if conf1.Highlighting.isSome then conf1
      else { conf1 with Highlighting := some defaultHl }
    Console.reloadConfig { c with config := conf2 }

/-- A console whose current context is named `"ops"`. -/
def opsConsole : Console :=
  { consoleWithFilters [] with
    current := { (consoleWithFilters []).current with Name := "ops" } }

/-- A configuration value with both maps nil, as a caller that did not
use `NewDefaultConfig` would produce. -/
def plainConf : Config :=
  { InputMode := InputVim
    Prompts := none
    Hints := true
    MaxTabCompleterRows := 50
    Highlighting := none }

/-- Claim C8 is violated by the code: loading a config on a console whose
current context is named `"ops"` panics — `LoadConfig` substitutes a
`Prompts` map holding only the key `""`, and `reloadConfig` then
dereferences the missing entry `Prompts["ops"]` (a nil `*PromptConfig`)
— while the same load succeeds on the default context `""`, and a nil
config is returned unchanged. The claim says absent keys get built-in
defaults and the reload path never fails, whatever the context's name. -/
theorem c8_loadconfig_panics :
    opsConsole.LoadConfig (some plainConf) = none ∧
    ((consoleWithFilters []).LoadConfig (some plainConf)).isSome = true ∧
    opsConsole.LoadConfig none = some opsConsole := by
  refine ⟨rfl, rfl, rfl⟩
